import Mathlib

/-!
Verification of the realtime chat/presence synchronization logic of an
events platform (React + Supabase client).  The definitions below are a
shallow embedding of the TypeScript source: repository query builders,
the message-stream merge callback of the event-detail view, the presence
aggregation handlers, the subscription lifecycle of the detail view, and
the create-event / send-message form handlers.  Timestamps are modelled
as natural numbers, identifiers as strings, and fallible external calls
as `Except` values supplied by the environment.
-/

/-- A row of the `chat_messages` table as delivered to the client
(src/types/database: id, event_id, user_id, content, created_at). -/
structure ChatMessage where
  id : String
  event_id : String
  user_id : String
  content : String
  created_at : Nat
deriving DecidableEq

/-- A row of the `events` table as delivered to the client
(src/types/database: id, title, description, date, location,
created_at, updated_at). -/
structure EventRow where
  id : String
  title : String
  description : Option String
  date : String
  location : String
  created_at : Nat
  updated_at : Nat
deriving DecidableEq

/-- The `setMessages` updater of the message-subscription callback in
`EventDetail` (part_005 lines 101-107): append the delivered message to
the tail unless an entry with the same id is already present. -/
def mergeRemoteInsert (prev : List ChatMessage) (newMessage : ChatMessage) :
    List ChatMessage :=
  if prev.any (fun msg => msg.id = newMessage.id) then prev
  else prev ++ [newMessage]

/-- A whole sequence of remote-insert deliveries applied to the local
message sequence, one `mergeRemoteInsert` per delivered message. -/
def deliverInserts (init : List ChatMessage) (arrivals : List ChatMessage) :
    List ChatMessage :=
  arrivals.foldl mergeRemoteInsert init

/-- `deliverInserts` seen at the level of message identifiers: fold the
arriving ids into the accumulated id list, skipping ids already seen. -/
def insertIds (acc : List String) : List String → List String
  | [] => acc
  | i :: rest => insertIds (if i ∈ acc then acc else acc ++ [i]) rest

theorem mergeRemoteInsert_eq (prev : List ChatMessage) (m : ChatMessage) :
    mergeRemoteInsert prev m =
      if m.id ∈ prev.map ChatMessage.id then prev else prev ++ [m] := by
  unfold mergeRemoteInsert
  by_cases h : m.id ∈ prev.map ChatMessage.id
  · rw [if_pos h, if_pos]
    rw [List.any_eq_true]
    rcases List.mem_map.mp h with ⟨msg, hmsg, hid⟩
    exact ⟨msg, hmsg, decide_eq_true hid⟩
  · rw [if_neg h, if_neg]
    intro hany
    rcases List.any_eq_true.mp hany with ⟨msg, hmsg, hid⟩
    exact h (List.mem_map.mpr ⟨msg, hmsg, of_decide_eq_true hid⟩)

theorem map_id_deliverInserts (init arrivals : List ChatMessage) :
    (deliverInserts init arrivals).map ChatMessage.id =
      insertIds (init.map ChatMessage.id) (arrivals.map ChatMessage.id) := by
  induction arrivals generalizing init with
  | nil => rfl
  | cons m rest ih =>
    show (deliverInserts (mergeRemoteInsert init m) rest).map ChatMessage.id = _
    rw [ih, mergeRemoteInsert_eq]
    show _ = insertIds (if m.id ∈ init.map ChatMessage.id then _ else _) _
    by_cases h : m.id ∈ init.map ChatMessage.id
    · rw [if_pos h, if_pos h]
    · rw [if_neg h, if_neg h, List.map_append]
      rfl

theorem insertIds_nodup (l : List String) (acc : List String)
    (h : acc.Nodup) : (insertIds acc l).Nodup := by
  induction l generalizing acc with
  | nil => exact h
  | cons i rest ih =>
    show (insertIds (if i ∈ acc then acc else acc ++ [i]) rest).Nodup
    by_cases hi : i ∈ acc
    · rw [if_pos hi]; exact ih acc h
    · rw [if_neg hi]
      refine ih (acc ++ [i]) ?_
      simpa [List.nodup_append] using ⟨h, hi⟩

theorem insertIds_isPrefix (l : List String) (acc : List String) :
    acc <+: insertIds acc l := by
  induction l generalizing acc with
  | nil => exact List.prefix_refl acc
  | cons i rest ih =>
    show acc <+: insertIds (if i ∈ acc then acc else acc ++ [i]) rest
    by_cases hi : i ∈ acc
    · rw [if_pos hi]; exact ih acc
    · rw [if_neg hi]
      exact List.IsPrefix.trans (List.prefix_append acc [i]) (ih (acc ++ [i]))

theorem insertIds_mem (l : List String) (acc : List String) (a : String) :
    a ∈ insertIds acc l ↔ a ∈ acc ∨ a ∈ l := by
  induction l generalizing acc with
  | nil => simp [insertIds]
  | cons i rest ih =>
    show a ∈ insertIds (if i ∈ acc then acc else acc ++ [i]) rest ↔ _
    by_cases hi : i ∈ acc
    · rw [if_pos hi, ih]
      constructor
      · rintro (h | h)
        · exact Or.inl h
        · exact Or.inr (List.mem_cons_of_mem i h)
      · rintro (h | h)
        · exact Or.inl h
        · rcases List.mem_cons.mp h with rfl | h
          · exact Or.inl hi
          · exact Or.inr h
    · rw [if_neg hi, ih]
      simp only [List.mem_append, List.mem_singleton, List.mem_cons]
      tauto

theorem insertIds_indexOf (l : List String) (acc : List String)
    (hacc : acc.Nodup) (a b : String)
    (ha : a ∈ insertIds acc l) (hb : b ∈ insertIds acc l)
    (hlt : (acc ++ l).indexOf a < (acc ++ l).indexOf b) :
    (insertIds acc l).indexOf a < (insertIds acc l).indexOf b := by
  induction l generalizing acc with
  | nil => simpa using hlt
  | cons i rest ih =>
    by_cases hi : i ∈ acc
    · have hstep : insertIds acc (i :: rest) = insertIds acc rest := by
        show insertIds (if i ∈ acc then acc else acc ++ [i]) rest = _
        rw [if_pos hi]
      rw [hstep] at ha hb ⊢
      refine ih acc hacc ha hb ?_
      -- transport the index comparison from `acc ++ i :: rest` to `acc ++ rest`
      have key : ∀ x, x ∈ insertIds acc rest →
          ((x ∈ acc ∧ (acc ++ i :: rest).indexOf x = (acc ++ rest).indexOf x
              ∧ (acc ++ rest).indexOf x < acc.length)
           ∨ (x ∉ acc ∧ (acc ++ i :: rest).indexOf x = (acc ++ rest).indexOf x + 1
              ∧ acc.length ≤ (acc ++ rest).indexOf x)) := by
        intro x hx
        by_cases hxa : x ∈ acc
        · refine Or.inl ⟨hxa, ?_, ?_⟩
          · rw [List.indexOf_append_of_mem hxa, List.indexOf_append_of_mem hxa]
          · rw [List.indexOf_append_of_mem hxa]
            exact List.indexOf_lt_length.mpr hxa
        · have hxr : x ∈ rest := by
            rcases (insertIds_mem rest acc x).mp hx with h | h
            · exact absurd h hxa
            · exact h
          have hxi : i ≠ x := by
            intro hEq; exact hxa (hEq ▸ hi)
          refine Or.inr ⟨hxa, ?_, ?_⟩
          · rw [List.indexOf_append_of_not_mem hxa,
              List.indexOf_append_of_not_mem hxa, List.indexOf_cons_ne _ hxi]
            omega
          · rw [List.indexOf_append_of_not_mem hxa]
            exact Nat.le_add_right _ _
      rcases key a ha with ⟨_, hea, hla⟩ | ⟨_, hea, hla⟩ <;>
        rcases key b hb with ⟨_, heb, hlb⟩ | ⟨_, heb, hlb⟩ <;> omega
    · have hstep : insertIds acc (i :: rest) = insertIds (acc ++ [i]) rest := by
        show insertIds (if i ∈ acc then acc else acc ++ [i]) rest = _
        rw [if_neg hi]
      have hassoc : acc ++ i :: rest = (acc ++ [i]) ++ rest := by simp
      rw [hstep] at ha hb ⊢
      rw [hassoc] at hlt
      refine ih (acc ++ [i]) ?_ ha hb hlt
      simpa [List.nodup_append] using ⟨hacc, hi⟩

theorem deliverInserts_isPrefix (arrivals init : List ChatMessage) :
    init <+: deliverInserts init arrivals := by
  induction arrivals generalizing init with
  | nil => exact List.prefix_refl init
  | cons m rest ih =>
    refine List.IsPrefix.trans ?_ (ih (mergeRemoteInsert init m))
    unfold mergeRemoteInsert
    by_cases h : init.any (fun msg => msg.id = m.id)
    · rw [if_pos h]
    · rw [if_neg h]; exact List.prefix_append init [m]

/-- C1: over any sequence of remote-insert deliveries (duplicates included),
the local message sequence keeps at most one entry per identifier, a
delivered message is appended to the tail only when its id is absent, the
initial batch stays in place, and the relative order of first-seen
identifiers follows arrival order (no re-sort by timestamp). -/
theorem message_stream_dedup (init arrivals : List ChatMessage)
    (hinit : (init.map ChatMessage.id).Nodup) :
    ((deliverInserts init arrivals).map ChatMessage.id).Nodup
    ∧ init <+: deliverInserts init arrivals
    ∧ (∀ prev m, (m.id ∈ prev.map ChatMessage.id → mergeRemoteInsert prev m = prev)
        ∧ (m.id ∉ prev.map ChatMessage.id → mergeRemoteInsert prev m = prev ++ [m]))
    ∧ (∀ a b, a ∈ (deliverInserts init arrivals).map ChatMessage.id →
        b ∈ (deliverInserts init arrivals).map ChatMessage.id →
        ((init ++ arrivals).map ChatMessage.id).indexOf a <
          ((init ++ arrivals).map ChatMessage.id).indexOf b →
        ((deliverInserts init arrivals).map ChatMessage.id).indexOf a <
          ((deliverInserts init arrivals).map ChatMessage.id).indexOf b) := by
  refine ⟨?_, deliverInserts_isPrefix arrivals init, ?_, ?_⟩
  · rw [map_id_deliverInserts]
    exact insertIds_nodup _ _ hinit
  · intro prev m
    constructor
    · intro h; rw [mergeRemoteInsert_eq, if_pos h]
    · intro h; rw [mergeRemoteInsert_eq, if_neg h]
  · intro a b ha hb hlt
    rw [map_id_deliverInserts] at ha hb ⊢
    rw [List.map_append] at hlt
    exact insertIds_indexOf _ _ hinit a b ha hb hlt

/-- A remote insert delivered twice with the same identifier
(content refreshed on the second delivery). -/
def msgHola : ChatMessage :=
  { id := "m1", event_id := "e1", user_id := "u1", content := "hola", created_at := 1 }

/-- The duplicate delivery of `msgHola`'s identifier. -/
def msgHolaDup : ChatMessage :=
  { id := "m1", event_id := "e1", user_id := "u1", content := "hola!", created_at := 2 }

/-- Witness for C1 at a concrete duplicate-delivery sequence. -/
theorem message_stream_dedup_witness :
    ((deliverInserts [] [msgHola, msgHolaDup]).map ChatMessage.id).Nodup
    ∧ [] <+: deliverInserts [] [msgHola, msgHolaDup]
    ∧ (∀ prev m, (m.id ∈ prev.map ChatMessage.id → mergeRemoteInsert prev m = prev)
        ∧ (m.id ∉ prev.map ChatMessage.id → mergeRemoteInsert prev m = prev ++ [m]))
    ∧ (∀ a b, a ∈ (deliverInserts [] [msgHola, msgHolaDup]).map ChatMessage.id →
        b ∈ (deliverInserts [] [msgHola, msgHolaDup]).map ChatMessage.id →
        (([] ++ [msgHola, msgHolaDup]).map ChatMessage.id).indexOf a <
          (([] ++ [msgHola, msgHolaDup]).map ChatMessage.id).indexOf b →
        ((deliverInserts [] [msgHola, msgHolaDup]).map ChatMessage.id).indexOf a <
          ((deliverInserts [] [msgHola, msgHolaDup]).map ChatMessage.id).indexOf b) :=
  message_stream_dedup [] [msgHola, msgHolaDup] (by simp)

/-- The local state of the `EventDetail` view (part_005 lines 24-31),
together with which realtime channels the mounted view holds open. -/
structure DetailState where
  messages : List ChatMessage
  loading : Bool
  toasts : List String
  messageText : String
  sending : Bool
  msgChannelOpen : Bool
  presChannelOpen : Bool
deriving DecidableEq

/-- The state a freshly mounted `EventDetail` starts from (useState
initialisers, part_005 lines 24-31). -/
def initialDetailState : DetailState :=
  { messages := [], loading := true, toasts := [], messageText := "",
    sending := false, msgChannelOpen := false, presChannelOpen := false }

/-- Outcome of the initial `getMessagesByEvent` call as seen by the view. -/
abbrev FetchResult := Except String (List ChatMessage)

/-- The fetch-messages effect of `EventDetail` (part_005 lines 71-87): on
error only a toast is raised and the handler returns; on success the data
is stored and loading ends. -/
def applyFetchMessages (r : FetchResult) (s : DetailState) : DetailState :=
  match r with
  | .error e => { s with toasts := s.toasts ++ [e] }
  | .ok data => { s with messages := data, loading := false }

/-- The realtime-setup effect of `EventDetail` (part_005 lines 92-122): it
opens the message channel unconditionally (and the presence channel when a
user id is known); it is a separate effect, not conditioned on the fetch. -/
def setupRealtime (currentUserId : Option String) (s : DetailState) : DetailState :=
  { s with msgChannelOpen := true, presChannelOpen := currentUserId.isSome }

/-- Mounting `EventDetail` with the route id present: the synchronous part
of the effects runs (realtime setup), then the asynchronous fetch completes
with result `r`. -/
def mountEventDetail (currentUserId : Option String) (r : FetchResult) : DetailState :=
  applyFetchMessages r (setupRealtime currentUserId initialDetailState)

/-- C2 counterexample: mounting with the initial fetch failing, the error
is reported, yet the message-stream subscription is open — the fetch effect
and the subscription effect are independent, so a failed fetch does not
prevent the subscription. -/
theorem fetch_error_opens_subscription_cex :
    (mountEventDetail (some "u1") (.error "Network error")).toasts = ["Network error"]
    ∧ (mountEventDetail (some "u1") (.error "Network error")).msgChannelOpen = true
    ∧ ¬ ((mountEventDetail (some "u1") (.error "Network error")).msgChannelOpen = false) := by
  refine ⟨rfl, rfl, ?_⟩
  intro h
  exact absurd h (by decide)

/-- C2 amended: if the initial fetch of messages fails, the error is
reported and the message list stays empty, but the message-stream
subscription is opened regardless (the subscription effect runs
independently of the fetch outcome). -/
theorem fetch_error_reported_subscription_opened (uid : Option String) (e : String) :
    (mountEventDetail uid (.error e)).toasts = [e]
    ∧ (mountEventDetail uid (.error e)).messages = []
    ∧ (mountEventDetail uid (.error e)).loading = true
    ∧ (mountEventDetail uid (.error e)).msgChannelOpen = true := by
  exact ⟨rfl, rfl, rfl, rfl⟩

/-- The empty-state branch of the chat render (part_005 lines 228 and 317):
the "no messages" copy shows exactly when loading has finished and the
message list is empty. -/
def showsNoMessages (s : DetailState) : Bool :=
  !s.loading && s.messages.isEmpty

/-- Stable ascending insertion on `created_at`, the order the store applies
to the `order by created_at ascending` clause of the query. -/
def insertByTime (m : ChatMessage) : List ChatMessage → List ChatMessage
  | [] => [m]
  | x :: xs =>
    if m.created_at < x.created_at then m :: x :: xs
    else x :: insertByTime m xs

/-- Rows in ascending `created_at` order (stable sort of the table rows). -/
def orderByCreatedAt (l : List ChatMessage) : List ChatMessage :=
  l.foldr insertByTime []

/-- getMessagesByEvent (src/lib/messages.ts lines 12-20): select the rows
of `chat_messages` with `event_id = eventId`, ordered by `created_at`
ascending; `net` injects a transport or authorization failure of the call. -/
def getMessagesByEvent (net : Option String) (db : List ChatMessage)
    (eventId : String) : FetchResult :=
  match net with
  | some e => .error e
  | none => .ok (orderByCreatedAt (db.filter (fun m => m.event_id = eventId)))

theorem insertByTime_perm (m : ChatMessage) (l : List ChatMessage) :
    (insertByTime m l).Perm (m :: l) := by
  induction l with
  | nil => exact List.Perm.refl _
  | cons x xs ih =>
    unfold insertByTime
    by_cases h : m.created_at < x.created_at
    · rw [if_pos h]
    · rw [if_neg h]
      exact List.Perm.trans (List.Perm.cons x ih) (List.Perm.swap m x xs)

theorem orderByCreatedAt_perm (l : List ChatMessage) :
    (orderByCreatedAt l).Perm l := by
  induction l with
  | nil => exact List.Perm.refl _
  | cons x xs ih =>
    exact List.Perm.trans (insertByTime_perm x (orderByCreatedAt xs))
      (List.Perm.cons x ih)

theorem insertByTime_pairwise (m : ChatMessage) (l : List ChatMessage)
    (h : l.Pairwise (fun a b => a.created_at ≤ b.created_at)) :
    (insertByTime m l).Pairwise (fun a b => a.created_at ≤ b.created_at) := by
  induction l with
  | nil => simp [insertByTime]
  | cons x xs ih =>
    rcases List.pairwise_cons.mp h with ⟨hx, hxs⟩
    unfold insertByTime
    by_cases hc : m.created_at < x.created_at
    · rw [if_pos hc]
      refine List.pairwise_cons.mpr ⟨?_, h⟩
      intro y hy
      rcases List.mem_cons.mp hy with rfl | hy
      · exact Nat.le_of_lt hc
      · exact Nat.le_trans (Nat.le_of_lt hc) (hx y hy)
    · rw [if_neg hc]
      refine List.pairwise_cons.mpr ⟨?_, ih hxs⟩
      intro y hy
      have : y ∈ m :: xs := (insertByTime_perm m xs).mem_iff.mp hy
      rcases List.mem_cons.mp this with rfl | hy'
      · exact Nat.le_of_not_lt hc
      · exact hx y hy'

theorem orderByCreatedAt_pairwise (l : List ChatMessage) :
    (orderByCreatedAt l).Pairwise (fun a b => a.created_at ≤ b.created_at) := by
  induction l with
  | nil => exact List.Pairwise.nil
  | cons x xs ih => exact insertByTime_pairwise x (orderByCreatedAt xs) ih

/-- C5: loading initial messages returns all of the event's messages in
ascending creation-time order, or surfaces the fetch error; an event with
zero rows yields the empty sequence and the no-messages view state, with no
error reported. -/
theorem load_initial_messages_spec (net : Option String) (db : List ChatMessage)
    (eventId : String) :
    (∀ e, net = some e → getMessagesByEvent net db eventId = .error e)
    ∧ (net = none → ∃ l, getMessagesByEvent net db eventId = .ok l
        ∧ l.Perm (db.filter (fun m => m.event_id = eventId))
        ∧ l.Pairwise (fun a b => a.created_at ≤ b.created_at)
        ∧ (∀ m, m ∈ l ↔ (m ∈ db ∧ m.event_id = eventId)))
    ∧ ((∀ m ∈ db, m.event_id ≠ eventId) →
        getMessagesByEvent none db eventId = .ok []
        ∧ showsNoMessages (mountEventDetail none (getMessagesByEvent none db eventId)) = true
        ∧ (mountEventDetail none (getMessagesByEvent none db eventId)).toasts = []) := by
  refine ⟨?_, ?_, ?_⟩
  · intro e h
    rw [h]
    rfl
  · intro h
    subst h
    refine ⟨orderByCreatedAt (db.filter (fun m => m.event_id = eventId)), rfl,
      orderByCreatedAt_perm _, orderByCreatedAt_pairwise _, ?_⟩
    intro m
    rw [(orderByCreatedAt_perm _).mem_iff, List.mem_filter]
    exact ⟨fun ⟨h1, h2⟩ => ⟨h1, of_decide_eq_true h2⟩,
      fun ⟨h1, h2⟩ => ⟨h1, decide_eq_true h2⟩⟩
  · intro h
    have hnil : db.filter (fun m => m.event_id = eventId) = [] := by
      rw [List.filter_eq_nil_iff]
      intro m hm
      exact fun hd => h m hm (of_decide_eq_true hd)
    have hq : getMessagesByEvent none db eventId = .ok [] := by
      show Except.ok (orderByCreatedAt (db.filter (fun m => m.event_id = eventId))) = _
      rw [hnil]
      rfl
    refine ⟨hq, ?_, ?_⟩ <;> rw [hq] <;> rfl

/-- The two tables of migration 001 as the store holds them. -/
structure Database where
  events : List EventRow
  chat_messages : List ChatMessage
deriving DecidableEq

/-- deleteEvent (part_001 lines 63-70): delete the rows of `events` whose
id matches; per migration 001 the store cascades the delete to the
`chat_messages` rows whose `event_id` references a deleted row
(`ON DELETE CASCADE`). -/
def deleteEvent (db : Database) (id : String) : Database :=
  let deletedIds := (db.events.filter (fun e => e.id = id)).map EventRow.id
  { events := db.events.filter (fun e => ¬ e.id = id),
    chat_messages := db.chat_messages.filter (fun m => ¬ m.event_id ∈ deletedIds) }

/-- C6: under referential integrity of `chat_messages.event_id`, deleting
an event removes all chat messages referencing it, so fetching messages for
the deleted identifier afterwards returns the empty result, not an error. -/
theorem delete_event_cascade (db : Database) (id : String)
    (hfk : ∀ m ∈ db.chat_messages, ∃ e ∈ db.events, m.event_id = e.id) :
    getMessagesByEvent none (deleteEvent db id).chat_messages id = .ok [] := by
  have hnil : (deleteEvent db id).chat_messages.filter
      (fun m => m.event_id = id) = [] := by
    rw [List.filter_eq_nil_iff]
    intro m hm hdec
    have heq : m.event_id = id := of_decide_eq_true hdec
    unfold deleteEvent at hm
    rw [List.mem_filter] at hm
    rcases hm with ⟨hmem, hkeep⟩
    rcases hfk m hmem with ⟨e, he, hme⟩
    have hid : e.id = id := hme ▸ heq
    have : m.event_id ∈ (db.events.filter (fun e => e.id = id)).map EventRow.id := by
      rw [List.mem_map]
      exact ⟨e, List.mem_filter.mpr ⟨he, decide_eq_true hid⟩, hme.symm⟩
    rw [decide_eq_true_eq] at hkeep
    exact hkeep this
  show Except.ok (orderByCreatedAt _) = _
  rw [hnil]
  rfl

/-- A database of one event and one message referencing it. -/
def dbLaunch : Database :=
  { events := [{ id := "e1", title := "Launch", description := none,
                 date := "2025-01-01T18:00:00Z", location := "HQ",
                 created_at := 0, updated_at := 0 }],
    chat_messages := [{ id := "m1", event_id := "e1", user_id := "u1",
                        content := "hello", created_at := 1 }] }

/-- Witness for C6: deleting the only event of `dbLaunch` leaves no
messages to fetch for its identifier. -/
theorem delete_event_cascade_witness :
    getMessagesByEvent none (deleteEvent dbLaunch "e1").chat_messages "e1" = .ok [] :=
  delete_event_cascade dbLaunch "e1" (by
    intro m hm
    refine ⟨{ id := "e1", title := "Launch", description := none,
              date := "2025-01-01T18:00:00Z", location := "HQ",
              created_at := 0, updated_at := 0 }, by simp [dbLaunch], ?_⟩
    have : m = { id := "m1", event_id := "e1", user_id := "u1",
                 content := "hello", created_at := 1 } := by
      simpa [dbLaunch] using hm
    rw [this])

/-- Modelled from the spec: the presence aggregate of a realtime channel —
an untyped keyed structure owned by the platform — as a mapping from
principal identifier (the tracking key) to a last-seen timestamp, kept as
an association list whose keys the platform keeps distinct. -/
abbrev PresenceMap := List (String × Nat)

/-- Modelled from the spec: a member starting to track itself on the
channel; a key already present has its record refreshed, a new key joins
at the end. -/
def presenceTrack (s : PresenceMap) (key : String) (onlineAt : Nat) : PresenceMap :=
  if s.any (fun p => p.1 = key) then
    s.map (fun p => if p.1 = key then (key, onlineAt) else p)
  else s ++ [(key, onlineAt)]

/-- Modelled from the spec: a member leaving the channel removes its key
from the aggregate. -/
def presenceLeave (s : PresenceMap) (key : String) : PresenceMap :=
  s.filter (fun p => ¬ p.1 = key)

/-- The handler body shared by the sync/join/leave listeners of
subscribeToPresence (messages.ts lines 99-116): the integer handed to the
caller's callback is the number of keys of the channel's current state. -/
def presenceHandlerCount (s : PresenceMap) : Nat :=
  (s.map Prod.fst).length

/-- The number of distinct tracked keys of a channel state. -/
def countDistinctKeys (s : PresenceMap) : Nat :=
  ((s.map Prod.fst).dedup).length

/-- An aggregate state change delivered on the presence channel. -/
inductive PresenceEvent where
  | track (key : String) (onlineAt : Nat)
  | leave (key : String)
  | sync
deriving DecidableEq

/-- How one presence event changes the channel state. -/
def presenceStep (s : PresenceMap) : PresenceEvent → PresenceMap
  | .track k t => presenceTrack s k t
  | .leave k => presenceLeave s k
  | .sync => s

/-- The channel states after each delivered event. -/
def presenceTrace (s : PresenceMap) : List PresenceEvent → List PresenceMap
  | [] => []
  | e :: rest =>
    presenceStep s e :: presenceTrace (presenceStep s e) rest

/-- Running the subscription: after every event the handlers fire and emit
`presenceHandlerCount` of the current state — the sequence of integers the
caller's callback receives. -/
def runPresence (s : PresenceMap) : List PresenceEvent → List Nat
  | [] => []
  | e :: rest =>
    presenceHandlerCount (presenceStep s e) :: runPresence (presenceStep s e) rest

theorem presenceTrack_keys (s : PresenceMap) (k : String) (t : Nat) :
    (presenceTrack s k t).map Prod.fst =
      if k ∈ s.map Prod.fst then s.map Prod.fst else s.map Prod.fst ++ [k] := by
  unfold presenceTrack
  by_cases h : k ∈ s.map Prod.fst
  · rw [if_pos h, if_pos, List.map_map]
    · refine List.map_congr_left ?_
      intro p _
      show (if p.1 = k then ((k, t) : String × Nat) else p).1 = p.1
      by_cases hp : p.1 = k
      · rw [if_pos hp, hp]
      · rw [if_neg hp]
    · rw [List.any_eq_true]
      rcases List.mem_map.mp h with ⟨p, hp, hpk⟩
      exact ⟨p, hp, decide_eq_true hpk⟩
  · rw [if_neg h, if_neg]
    · simp
    · intro hany
      rcases List.any_eq_true.mp hany with ⟨p, hp, hpk⟩
      exact h (List.mem_map.mpr ⟨p, hp, of_decide_eq_true hpk⟩)

theorem presenceStep_keys_nodup (s : PresenceMap) (e : PresenceEvent)
    (hs : (s.map Prod.fst).Nodup) : ((presenceStep s e).map Prod.fst).Nodup := by
  cases e with
  | track k t =>
    show ((presenceTrack s k t).map Prod.fst).Nodup
    rw [presenceTrack_keys]
    by_cases h : k ∈ s.map Prod.fst
    · rw [if_pos h]; exact hs
    · rw [if_neg h]
      exact List.Nodup.append hs (List.nodup_singleton k)
        (List.disjoint_singleton.mpr h)
  | leave k =>
    exact List.Nodup.sublist (List.Sublist.map Prod.fst (List.filter_sublist s)) hs
  | sync => exact hs

/-- C3: every sync/join/leave handler recomputes the count as the number of
distinct tracked keys of the channel's current state and hands that integer
to the caller's callback; in particular a first tracking principal yields
1, a second distinct principal yields 2, and either of them leaving returns
the count to 1. -/
theorem presence_aggregator_spec (s : PresenceMap) (evs : List PresenceEvent)
    (u1 u2 : String) (t1 t2 : Nat)
    (hs : (s.map Prod.fst).Nodup) (h12 : u1 ≠ u2) :
    runPresence s evs = (presenceTrace s evs).map countDistinctKeys
    ∧ runPresence [] [.track u1 t1] = [1]
    ∧ runPresence [] [.track u1 t1, .track u2 t2] = [1, 2]
    ∧ runPresence [] [.track u1 t1, .track u2 t2, .leave u2] = [1, 2, 1]
    ∧ runPresence [] [.track u1 t1, .track u2 t2, .leave u1] = [1, 2, 1] := by
  have h21 : u2 ≠ u1 := fun h => h12 h.symm
  refine ⟨?_, ?_, ?_, ?_, ?_⟩
  · induction evs generalizing s with
    | nil => rfl
    | cons e rest ih =>
      show presenceHandlerCount (presenceStep s e) :: runPresence (presenceStep s e) rest
          = countDistinctKeys (presenceStep s e) ::
            (presenceTrace (presenceStep s e) rest).map countDistinctKeys
      have hnd := presenceStep_keys_nodup s e hs
      rw [ih (presenceStep s e) hnd]
      unfold presenceHandlerCount countDistinctKeys
      rw [List.Nodup.dedup hnd]
  · simp [runPresence, presenceStep, presenceTrack, presenceHandlerCount]
  · simp [runPresence, presenceStep, presenceTrack, presenceHandlerCount, h12, h21]
  · simp [runPresence, presenceStep, presenceTrack, presenceLeave,
      presenceHandlerCount, h21, h12]
  · simp [runPresence, presenceStep, presenceTrack, presenceLeave,
      presenceHandlerCount, h21, h12]

/-- Witness for C3 at concrete principals and a concrete event stream. -/
theorem presence_aggregator_spec_witness :
    runPresence [] [.track "ana" 0, .sync, .leave "ana"]
      = (presenceTrace [] [.track "ana" 0, .sync, .leave "ana"]).map countDistinctKeys
    ∧ runPresence [] [.track "ana" 0] = [1]
    ∧ runPresence [] [.track "ana" 0, .track "bea" 1] = [1, 2]
    ∧ runPresence [] [.track "ana" 0, .track "bea" 1, .leave "bea"] = [1, 2, 1]
    ∧ runPresence [] [.track "ana" 0, .track "bea" 1, .leave "ana"] = [1, 2, 1] :=
  presence_aggregator_spec [] [.track "ana" 0, .sync, .leave "ana"]
    "ana" "bea" 0 1 (by simp) (by decide)

/-- A mounted `EventDetail` page view together with the realtime channels
it holds open (part_005 lines 92-132): `displayed` is the current route
eventId (none when unmounted), `msgChans` the open message channels and
`presChans` the open presence channels, each keyed as in the source. -/
structure ChatView where
  displayed : Option String
  user : Option String
  msgChans : List String
  presChans : List (String × String)
  messages : List ChatMessage
deriving DecidableEq

/-- The view before any mount: nothing displayed, no channel open. -/
def initialChatView : ChatView :=
  { displayed := none, user := none, msgChans := [], presChans := [],
    messages := [] }

/-- What can happen to the view: the realtime effect re-running for new
dependencies (mount or re-mount with a different eventId or user),
unmounting, or the transport delivering a message on a named channel. -/
inductive ViewAction where
  | setView (id : Option String) (uid : Option String)
  | unmount
  | deliver (chan : String) (m : ChatMessage)
deriving DecidableEq

/-- One step of the view.  `setView` embeds the effect of part_005 lines
92-132 under React's contract: the previous effect's cleanup (lines
124-131, unsubscribing both channels) runs before the effect re-runs and
opens channels for the new dependencies; the effect opens no channel when
the route id is absent, and no presence channel when no user id is known.
`deliver` embeds the subscription callback (lines 100-112): only an open
channel invokes it, and it merges with the duplicate guard. -/
def applyViewAction (v : ChatView) : ViewAction → ChatView
  | .setView id uid =>
    match id with
    | none =>
      { v with displayed := none, user := uid, msgChans := [], presChans := [] }
    | some e =>
      { v with
        displayed := some e
        user := uid
        msgChans := [e]
        presChans := (match uid with | some u => [(e, u)] | none => []) }
  | .unmount =>
    { v with displayed := none, msgChans := [], presChans := [] }
  | .deliver chan m =>
    if chan ∈ v.msgChans then { v with messages := mergeRemoteInsert v.messages m }
    else v

/-- A run of the view from the unmounted state. -/
def runView (acts : List ViewAction) : ChatView :=
  acts.foldl applyViewAction initialChatView

/-- The channels a view may hold open: none when unmounted, and exactly the
displayed event's (at most one of each) when mounted. -/
def channelsTracked (v : ChatView) : Prop :=
  match v.displayed with
  | none => v.msgChans = [] ∧ v.presChans = []
  | some e => v.msgChans = [e] ∧ (v.presChans = [] ∨ ∃ u, v.presChans = [(e, u)])

theorem applyViewAction_deliver (v : ChatView) (chan : String) (m : ChatMessage) :
    applyViewAction v (.deliver chan m) =
      if chan ∈ v.msgChans then { v with messages := mergeRemoteInsert v.messages m }
      else v := rfl

theorem applyViewAction_channelsTracked (v : ChatView) (a : ViewAction)
    (h : channelsTracked v) : channelsTracked (applyViewAction v a) := by
  cases a with
  | setView id uid =>
    cases id with
    | none =>
      show channelsTracked { v with
        displayed := none
        user := uid
        msgChans := []
        presChans := [] }
      exact ⟨rfl, rfl⟩
    | some e =>
      cases uid with
      | none =>
        show channelsTracked { v with
          displayed := some e
          user := none
          msgChans := [e]
          presChans := [] }
        exact ⟨rfl, Or.inl rfl⟩
      | some u =>
        show channelsTracked { v with
          displayed := some e
          user := some u
          msgChans := [e]
          presChans := [(e, u)] }
        exact ⟨rfl, Or.inr ⟨u, rfl⟩⟩
  | unmount =>
    show channelsTracked { v with displayed := none, msgChans := [], presChans := [] }
    exact ⟨rfl, rfl⟩
  | deliver chan m =>
    rw [applyViewAction_deliver]
    by_cases hc : chan ∈ v.msgChans
    · rw [if_pos hc]
      unfold channelsTracked at h ⊢
      exact h
    · rw [if_neg hc]
      exact h

theorem runView_channelsTracked (acts : List ViewAction) :
    channelsTracked (runView acts) := by
  suffices h : ∀ v, channelsTracked v →
      channelsTracked (acts.foldl applyViewAction v) by
    exact h initialChatView ⟨rfl, rfl⟩
  induction acts with
  | nil => exact fun v h => h
  | cons a rest ih =>
    exact fun v h => ih (applyViewAction v a) (applyViewAction_channelsTracked v a h)

/-- C4: along any run of the event-detail view, an unmounted view holds no
open channel, a mounted view holds exactly the displayed event's message
channel and at most that event's presence channel (re-mounting with a
different eventId closed the prior ones first), unmounting tears both
down, and a delivery can mutate the message state only on the channel of
the event currently displayed — never for a no-longer-displayed event. -/
theorem subscription_lifecycle (acts : List ViewAction) :
    ((runView acts).displayed = none →
      (runView acts).msgChans = [] ∧ (runView acts).presChans = [])
    ∧ (∀ e, (runView acts).displayed = some e →
        (runView acts).msgChans = [e]
        ∧ ((runView acts).presChans = []
            ∨ ∃ u, (runView acts).presChans = [(e, u)]))
    ∧ ((runView (acts ++ [.unmount])).msgChans = []
        ∧ (runView (acts ++ [.unmount])).presChans = [])
    ∧ (∀ chan m,
        (applyViewAction (runView acts) (.deliver chan m)).messages
            ≠ (runView acts).messages →
        (runView acts).displayed = some chan) := by
  have h := runView_channelsTracked acts
  refine ⟨?_, ?_, ?_, ?_⟩
  · intro hd
    unfold channelsTracked at h
    rw [hd] at h
    exact h
  · intro e hd
    unfold channelsTracked at h
    rw [hd] at h
    exact h
  · have hsplit : runView (acts ++ [ViewAction.unmount])
        = applyViewAction (runView acts) .unmount := by
      unfold runView
      rw [List.foldl_append]
      rfl
    rw [hsplit]
    exact ⟨rfl, rfl⟩
  · intro chan m hne
    by_cases hc : chan ∈ (runView acts).msgChans
    · cases hd : (runView acts).displayed with
      | none =>
        exfalso
        unfold channelsTracked at h
        rw [hd] at h
        rw [h.1] at hc
        exact List.not_mem_nil chan hc
      | some e =>
        unfold channelsTracked at h
        rw [hd] at h
        rw [h.1] at hc
        have : chan = e := by simpa using hc
        rw [this]
    · exfalso
      apply hne
      rw [applyViewAction_deliver, if_neg hc]

/-- The create-event form values (CreateEvent.tsx lines 29-41). -/
structure EventFormValues where
  title : String
  description : Option String
  date : String
  location : String
deriving DecidableEq

/-- The payload of a createEvent insert (src/types/database,
CreateEventInput). -/
structure CreateEventInput where
  title : String
  description : Option String
  date : String
  location : String
deriving DecidableEq

/-- The payload of a createMessage insert (src/types/database,
CreateMessageInput). -/
structure CreateMessageInput where
  event_id : String
  user_id : String
  content : String
deriving DecidableEq

/-- The zod eventSchema (CreateEvent.tsx lines 22-27): title 1..200
characters, description at most 1000 when given, date non-empty, location
1..200 characters.  zodResolver runs it before onSubmit. -/
def validEventForm (v : EventFormValues) : Bool :=
  decide (1 ≤ v.title.length ∧ v.title.length ≤ 200
    ∧ (v.description.getD "").length ≤ 1000
    ∧ 1 ≤ v.date.length
    ∧ 1 ≤ v.location.length ∧ v.location.length ≤ 200)

/-- The JS expression `values.description || null` (CreateEvent.tsx line
50): the empty string is falsy, so an empty description becomes null. -/
def orNullIfEmpty (d : Option String) : Option String :=
  match d with
  | none => none
  | some s => if s = "" then none else some s

/-- The insert payload built by onSubmit (CreateEvent.tsx lines 46-53);
`dateConv` is the browser's date pipeline `new Date(_).toISOString()`,
applied to the form's datetime-local value before insertion. -/
def eventPayload (dateConv : String → String) (v : EventFormValues) :
    CreateEventInput :=
  { title := v.title, description := orNullIfEmpty v.description,
    date := dateConv v.date, location := v.location }

/-- The events table inserting a row (migration 001 lines 5-13): the store
assigns `id` (gen_random_uuid) and both timestamps (now()) server-side and
returns the created row. -/
def serverInsertEvent (input : CreateEventInput) (newId : String) (now : Nat) :
    EventRow :=
  { id := newId, title := input.title, description := input.description,
    date := input.date, location := input.location,
    created_at := now, updated_at := now }

/-- The visible state of the create-event page: toasts raised and where the
page navigated. -/
structure CreateEventViewState where
  toasts : List String
  navigatedTo : Option String
deriving DecidableEq

/-- form.handleSubmit(onSubmit) of CreateEvent.tsx (lines 43-66 with the
zodResolver of line 34): invalid values are rejected before onSubmit runs,
so no network call happens; valid values insert the payload once, and the
server outcome decides toast and navigation.  The second component lists
the createEvent calls made. -/
def submitEventForm (dateConv : String → String) (v : EventFormValues)
    (server : Except String EventRow) (s : CreateEventViewState) :
    CreateEventViewState × List CreateEventInput :=
  if validEventForm v then
    match server with
    | .error e => ({ s with toasts := s.toasts ++ [e] }, [eventPayload dateConv v])
    | .ok _ =>
      ({ toasts := s.toasts ++ ["Evento creado exitosamente"], navigatedTo := some "/" },
        [eventPayload dateConv v])
  else (s, [])

/-- The JS `messageText.trim()` of handleSendMessage: strip whitespace
from both ends of the string (char-list form, so that it evaluates). -/
def strTrim (s : String) : String :=
  ⟨((s.data.dropWhile Char.isWhitespace).reverse.dropWhile
      Char.isWhitespace).reverse⟩

/-- handleSendMessage of EventDetail (part_005 lines 141-172): the guard
rejects a blank trimmed message, a missing user id and a missing route id
before any network call; otherwise createMessage is called once with the
trimmed content, an error raises a toast and leaves the view state alone,
success clears only the input text.  The second component lists the
createMessage calls made. -/
def handleSendMessage (id : Option String) (uid : Option String)
    (s : DetailState) (server : Except String ChatMessage) :
    DetailState × List CreateMessageInput :=
  if strTrim s.messageText = "" ∨ uid = none ∨ id = none then
    ((if uid = none
      then { s with toasts := s.toasts ++ ["Debes iniciar sesión para enviar mensajes"] }
      else s), [])
  else
    match id, uid with
    | some eid, some u =>
      (match server with
      | .error e =>
        ({ s with toasts := s.toasts ++ [e], sending := false },
          [{ event_id := eid, user_id := u, content := strTrim s.messageText }])
      | .ok _ =>
        ({ s with messageText := "", sending := false },
          [{ event_id := eid, user_id := u, content := strTrim s.messageText }]))
    | _, _ => (s, [])

/-- C7: submitting the create-event form with an empty title is rejected by
the client-side schema before any createEvent call; a valid title, date and
location submit exactly one createEvent call whose successful result is the
created record carrying the server-assigned id and timestamps. -/
theorem create_event_form_validation (dateConv : String → String)
    (v : EventFormValues) (newId : String) (now : Nat) :
    (v.title = "" → ∀ server s, submitEventForm dateConv v server s = (s, []))
    ∧ (validEventForm v = true → ∀ s,
        (submitEventForm dateConv v
            (.ok (serverInsertEvent (eventPayload dateConv v) newId now)) s).2
          = [eventPayload dateConv v]
        ∧ (serverInsertEvent (eventPayload dateConv v) newId now).id = newId
        ∧ (serverInsertEvent (eventPayload dateConv v) newId now).created_at = now
        ∧ (serverInsertEvent (eventPayload dateConv v) newId now).updated_at = now
        ∧ (serverInsertEvent (eventPayload dateConv v) newId now).title = v.title
        ∧ (serverInsertEvent (eventPayload dateConv v) newId now).location = v.location
        ∧ (submitEventForm dateConv v
            (.ok (serverInsertEvent (eventPayload dateConv v) newId now)) s).1.navigatedTo
          = some "/") := by
  constructor
  · intro htitle server s
    have hv : validEventForm v = false := by
      unfold validEventForm
      rw [htitle]
      simp
    unfold submitEventForm
    rw [hv]
    simp
  · intro hv s
    unfold submitEventForm
    rw [hv]
    exact ⟨rfl, rfl, rfl, rfl, rfl, rfl, rfl⟩

/-- C9: a send-message attempt whose text trims to empty, or made with no
authenticated user id or no route event id, makes no createMessage call;
a performed send passes exactly the trimmed message text as content. -/
theorem send_message_guard (id uid : Option String) (s : DetailState)
    (server : Except String ChatMessage) :
    ((strTrim s.messageText = "" ∨ uid = none ∨ id = none) →
      (handleSendMessage id uid s server).2 = [])
    ∧ (∀ eid u, id = some eid → uid = some u → ¬ strTrim s.messageText = "" →
      (handleSendMessage id uid s server).2
        = [{ event_id := eid, user_id := u, content := strTrim s.messageText }]) := by
  constructor
  · intro h
    unfold handleSendMessage
    rw [if_pos h]
  · intro eid u hid huid hne
    subst hid
    subst huid
    unfold handleSendMessage
    rw [if_neg]
    · cases server <;> rfl
    · simp [hne]

/-- C10: the payload onSubmit hands to createEvent carries `null` (never
the empty string) for an empty description, and the date field is the form
value run through the browser date-to-ISO conversion before insertion. -/
theorem create_event_payload_shape (dateConv : String → String)
    (v : EventFormValues) :
    (eventPayload dateConv v).date = dateConv v.date
    ∧ ((v.description = none ∨ v.description = some "") →
        (eventPayload dateConv v).description = none)
    ∧ (eventPayload dateConv v).description ≠ some ""
    ∧ (validEventForm v = true → ∀ server s,
        (submitEventForm dateConv v server s).2 = [eventPayload dateConv v]) := by
  refine ⟨rfl, ?_, ?_, ?_⟩
  · rintro (h | h) <;> simp [eventPayload, orNullIfEmpty, h]
  · show ¬ orNullIfEmpty v.description = some ""
    cases v.description with
    | none => simp [orNullIfEmpty]
    | some d =>
      by_cases hd : d = ""
      · simp [orNullIfEmpty, hd]
      · simp [orNullIfEmpty, hd]
  · intro hv server s
    unfold submitEventForm
    rw [hv]
    cases server <;> rfl

/-- C8: when a write fails — sending a message or creating an event — the
error is surfaced as a toast, the local view state is otherwise unchanged
(message sequence and pending text kept, no navigation), and exactly one
call was made, with no automatic retry. -/
theorem write_error_handling (eid u e : String) (s : DetailState)
    (dateConv : String → String) (v : EventFormValues)
    (cs : CreateEventViewState)
    (hmsg : ¬ strTrim s.messageText = "") (hv : validEventForm v = true) :
    (handleSendMessage (some eid) (some u) s (.error e)).1.messages = s.messages
    ∧ (handleSendMessage (some eid) (some u) s (.error e)).1.messageText = s.messageText
    ∧ (handleSendMessage (some eid) (some u) s (.error e)).1.toasts = s.toasts ++ [e]
    ∧ ((handleSendMessage (some eid) (some u) s (.error e)).2).length = 1
    ∧ (submitEventForm dateConv v (.error e) cs).1.toasts = cs.toasts ++ [e]
    ∧ (submitEventForm dateConv v (.error e) cs).1.navigatedTo = cs.navigatedTo
    ∧ ((submitEventForm dateConv v (.error e) cs).2).length = 1 := by
  have hsend : handleSendMessage (some eid) (some u) s (.error e)
      = ({ s with toasts := s.toasts ++ [e], sending := false },
        [{ event_id := eid, user_id := u, content := strTrim s.messageText }]) := by
    unfold handleSendMessage
    rw [if_neg]
    simp [hmsg]
  have hsub : submitEventForm dateConv v (.error e) cs
      = ({ cs with toasts := cs.toasts ++ [e] }, [eventPayload dateConv v]) := by
    unfold submitEventForm
    rw [hv]
    rfl
  rw [hsend, hsub]
  exact ⟨rfl, rfl, rfl, rfl, rfl, rfl, rfl⟩

/-- A concrete valid create-event form. -/
def launchForm : EventFormValues :=
  { title := "Launch", description := none,
    date := "2025-01-01T18:00", location := "HQ" }

/-- A concrete detail state holding a pending message. -/
def pendingState : DetailState :=
  { initialDetailState with messageText := "hola" }

/-- Witness for C8 with a concrete failing write on both forms. -/
theorem write_error_handling_witness :
    (handleSendMessage (some "e1") (some "u1") pendingState (.error "db down")).1.messages
      = pendingState.messages
    ∧ (handleSendMessage (some "e1") (some "u1") pendingState (.error "db down")).1.messageText
      = pendingState.messageText
    ∧ (handleSendMessage (some "e1") (some "u1") pendingState (.error "db down")).1.toasts
      = pendingState.toasts ++ ["db down"]
    ∧ ((handleSendMessage (some "e1") (some "u1") pendingState (.error "db down")).2).length = 1
    ∧ (submitEventForm id launchForm (.error "db down") ⟨[], none⟩).1.toasts
      = ([] : List String) ++ ["db down"]
    ∧ (submitEventForm id launchForm (.error "db down") ⟨[], none⟩).1.navigatedTo
      = (⟨[], none⟩ : CreateEventViewState).navigatedTo
    ∧ ((submitEventForm id launchForm (.error "db down") ⟨[], none⟩).2).length = 1 :=
  write_error_handling "e1" "u1" "db down" pendingState id launchForm ⟨[], none⟩
    (by decide) (by decide)
